import Mathlib

/-!
Shallow embedding of the Post Lifecycle & Scheduling Engine of the Xbot
repository (`backend/app/services/post_manager.py` and
`backend/app/services/scheduler.py`), together with theorems settling the
frozen claims about it.

Conventions of the embedding:
* Python `datetime` values are modelled by the `DateTime` structure below,
  to second precision (every clock value the engine constructs or compares
  has zero microseconds or the claims do not depend on sub-second digits).
  Chronological comparison is via a mixed-radix key, which agrees with
  Python's field-wise comparison on calendar-valid values.
* Python dicts used as keyed stores are modelled as association lists with
  first-match lookup; assignment replaces in place when the key exists and
  appends otherwise, matching dict insertion-order semantics.
* `uuid4` identifier generation is modelled by an explicit fresh-id counter
  threaded through the state; nothing in the claims depends on the shape of
  the identifiers themselves.
* `datetime.now()` is passed in explicitly as a `now` parameter.
* The external X service call (`x_service.post_tweet`) is modelled as an
  oracle `String → Except String Bool`: `.ok b` is a normal boolean return,
  `.error msg` models a raised exception carrying `msg`.
* Python exceptions are modelled with `Except String`; float division in
  statistics is modelled with exact rationals.
-/

namespace Xbot

/-- Calendar date-time to second precision, mirroring Python `datetime`
fields used by the engine. -/
structure DateTime where
  year : Nat
  month : Nat
  day : Nat
  hour : Nat
  minute : Nat
  second : Nat
deriving DecidableEq, Repr

/-- Mixed-radix chronological key; agrees with Python datetime ordering on
calendar-valid field values (month ≤ 12, day ≤ 31, hour < 24, ...). -/
def DateTime.key (d : DateTime) : Nat :=
  ((((d.year * 13 + d.month) * 32 + d.day) * 24 + d.hour) * 60 + d.minute) * 60 + d.second

/-- `a <= b` on datetimes (Python comparison). -/
def dtLe (a b : DateTime) : Bool := decide (a.key ≤ b.key)

/-- `a < b` on datetimes (Python comparison). -/
def dtLt (a b : DateTime) : Bool := decide (a.key < b.key)

/-- Gregorian leap-year test. -/
def isLeap (y : Nat) : Bool := (y % 4 = 0 && y % 100 ≠ 0) || y % 400 = 0

/-- Number of days in a month. -/
def daysInMonth (y m : Nat) : Nat :=
  if m = 2 then (if isLeap y then 29 else 28)
  else if m = 4 || m = 6 || m = 9 || m = 11 then 30
  else 31

/-- `timedelta(days=1)` on the date part: step to the next calendar day,
keeping the time-of-day fields. -/
def DateTime.succDay (d : DateTime) : DateTime :=
  if d.day < daysInMonth d.year d.month then { d with day := d.day + 1 }
  else if d.month < 12 then { d with month := d.month + 1, day := 1 }
  else { d with year := d.year + 1, month := 1, day := 1 }

/-- `d + timedelta(days=n)`. -/
def DateTime.addDays (d : DateTime) : Nat → DateTime
  | 0 => d
  | n + 1 => (d.succDay).addDays n

/-- Days-from-civil count (Gregorian), used only to compute the weekday;
standard era/year-of-era decomposition, valid for the years the engine
handles (all ≥ 1). -/
def daysFromCivil (y m d : Nat) : Nat :=
  let y' := if m ≤ 2 then y - 1 else y
  let era := y' / 400
  let yoe := y' - era * 400
  let mp := if m ≥ 3 then m - 3 else m + 9
  let doy := (153 * mp + 2) / 5 + d - 1
  let doe := yoe * 365 + yoe / 4 - yoe / 100 + doy
  era * 146097 + doe

/-- Python `datetime.weekday()`: Monday = 0 .. Sunday = 6.
(1970-01-01 has civil count 719468 and was a Thursday, weekday 3.) -/
def DateTime.wkday (d : DateTime) : Nat :=
  (daysFromCivil d.year d.month d.day + 2) % 7

/-- The `(year, month, day)` triple, Python `datetime.date()`. -/
def DateTime.dateTriple (d : DateTime) : Nat × Nat × Nat := (d.year, d.month, d.day)

/-- Post status enum (`PostStatus`). -/
inductive PostStatus where
  | draft
  | scheduled
  | posted
  | failed
deriving DecidableEq, Repr

/-- Post type enum (`PostType`). -/
inductive PostType where
  | text
  | image
  | video
  | mixed
deriving DecidableEq, Repr

/-- Schedule type enum (`ScheduleType`). -/
inductive ScheduleType where
  | once
  | daily
  | weekly
  | monthly
deriving DecidableEq, Repr

/-- Optimal time slot enum (`OptimalTimeSlot`). -/
inductive OptimalTimeSlot where
  | morning
  | lunch
  | evening
  | night
deriving DecidableEq, Repr

/-- The fixed clock time `suggest_optimal_times` assigns to a slot on a
given date: the date at midnight with the slot's hour/minute substituted
(`base_date.replace(hour=_, minute=_)`). -/
def slotTimeOn (date : DateTime) (slot : OptimalTimeSlot) : DateTime :=
  let base : DateTime :=
    { date with hour := 0, minute := 0, second := 0 }
  match slot with
  | .morning => { base with hour := 8, minute := 0 }
  | .lunch => { base with hour := 12, minute := 30 }
  | .evening => { base with hour := 19, minute := 0 }
  | .night => { base with hour := 22, minute := 0 }

/-- `PostScheduler.suggest_optimal_times`: the active config's slots are
mapped to their fixed clock times on `date`, candidates at or before `now`
are dropped, and at most `maxSuggestions` are returned, in slot order.
`slots` is `self.config.optimal_time_slots` (empty list models None/empty),
`now` is `datetime.now()`. -/
def suggest_optimal_times (slots : List OptimalTimeSlot) (now : DateTime)
    (date : DateTime) (maxSuggestions : Nat) : List DateTime :=
  if slots.isEmpty then []
  else
    let suggestions := slots.map (slotTimeOn date)
    let valid := suggestions.filter (fun s => dtLt now s)
    valid.take maxSuggestions

/-- `PostContent` value object. Python `None` defaults for the list fields
are modelled as empty lists. -/
structure PostContent where
  text : String
  image_url : Option String := none
  video_url : Option String := none
  hashtags : List String := []
  mentions : List String := []
  links : List String := []
deriving DecidableEq, Repr

/-- One token of a template body: literal text or a named placeholder
(`"...{name}..."` in the Python format string). -/
inductive Tok where
  | lit (s : String)
  | ph (name : String)
deriving DecidableEq, Repr

/-- `PostTemplate`. The body is the tokenised format string. -/
structure PostTemplate where
  name : String
  description : String
  content_template : List Tok
  hashtags : List String
  mentions : List String
  post_type : PostType
  enabled : Bool := true
  tone : String := "professional"
  max_length : Nat := 280
  include_link : Bool := false
  include_media : Bool := false
deriving DecidableEq, Repr

/-- `Post` aggregate. `engagement_stats` is opaque to the engine and
modelled as its serialized text. -/
structure Post where
  id : String
  content : PostContent
  scheduled_time : Option DateTime
  status : PostStatus
  post_type : PostType
  template_name : Option String
  created_at : DateTime
  updated_at : DateTime
  posted_at : Option DateTime := none
  error_message : Option String := none
  engagement_stats : Option String := none
deriving DecidableEq, Repr

/-- First-match lookup in a keyed store (Python `dict.get`). -/
def getk {α : Type} : List (String × α) → String → Option α
  | [], _ => none
  | (k', v) :: rest, k => if k' = k then some v else getk rest k

/-- Keyed store assignment (Python `d[k] = v`): replace in place when the
key exists, append otherwise. -/
def setk {α : Type} : List (String × α) → String → α → List (String × α)
  | [], k, v => [(k, v)]
  | (k', v') :: rest, k, v =>
    if k' = k then (k, v) :: rest else (k', v') :: setk rest k v

/-- Keyed store deletion (Python `del d[k]`). -/
def delk {α : Type} : List (String × α) → String → List (String × α)
  | [], _ => []
  | (k', v') :: rest, k =>
    if k' = k then delk rest k else (k', v') :: delk rest k

/-- Key membership (Python `k in d`). -/
def hask {α : Type} (m : List (String × α)) (k : String) : Bool :=
  (getk m k).isSome

/-- In-memory state of `PostManager`: the active-post store, the draft
store and the template registry. -/
structure PMState where
  posts : List (String × Post)
  drafts : List (String × Post)
  templates : List (String × PostTemplate)
deriving DecidableEq, Repr

/-- `PostManager.create_post`. `pid` is the generated uuid, `now` the
clock value used for both timestamps. No validation of any kind is
performed on `content`. -/
def create_post (pm : PMState) (pid : String) (now : DateTime)
    (content : PostContent) (post_type : PostType)
    (template_name : Option String) (scheduled_time : Option DateTime) :
    Post × PMState :=
  let post : Post :=
    { id := pid
      content := content
      scheduled_time := scheduled_time
      status := match scheduled_time with
        | none => .draft
        | some _ => .scheduled
      post_type := post_type
      template_name := template_name
      created_at := now
      updated_at := now }
  match scheduled_time with
  | none => (post, { pm with drafts := setk pm.drafts pid post })
  | some _ => (post, { pm with posts := setk pm.posts pid post })

/-- `PostManager.get_post`: `self.posts.get(post_id) or self.drafts.get(post_id)`. -/
def get_post (pm : PMState) (pid : String) : Option Post :=
  (getk pm.posts pid).orElse (fun _ => getk pm.drafts pid)

/-- One keyword argument of `PostManager.update_post`. Only the attributes
a claim can exercise are enumerated; `kwargs` naming attributes outside
this list behave the same way (set verbatim, no validation). -/
inductive PostField where
  | content (v : PostContent)
  | scheduled_time (v : Option DateTime)
  | status (v : PostStatus)
  | post_type (v : PostType)
  | template_name (v : Option String)
  | posted_at (v : Option DateTime)
  | error_message (v : Option String)
deriving DecidableEq, Repr

/-- `setattr(post, key, value)` for one update field. -/
def applyField (p : Post) : PostField → Post
  | .content v => { p with content := v }
  | .scheduled_time v => { p with scheduled_time := v }
  | .status v => { p with status := v }
  | .post_type v => { p with post_type := v }
  | .template_name v => { p with template_name := v }
  | .posted_at v => { p with posted_at := v }
  | .error_message v => { p with error_message := v }

/-- `PostManager.update_post`: NotFound when the id is absent; otherwise
sets every supplied field verbatim, refreshes `updated_at`, and re-stores
the post in whichever partition currently holds its id (the partition
never changes on update). -/
def update_post (pm : PMState) (pid : String) (updates : List PostField)
    (now : DateTime) : Except String (Post × PMState) :=
  match get_post pm pid with
  | none => .error ("投稿が見つかりません: " ++ pid)
  | some post =>
    let post := updates.foldl applyField post
    let post := { post with updated_at := now }
    if hask pm.drafts pid then
      .ok (post, { pm with drafts := setk pm.drafts pid post })
    else
      .ok (post, { pm with posts := setk pm.posts pid post })

/-- `PostManager.delete_post`. -/
def delete_post (pm : PMState) (pid : String) : Bool × PMState :=
  if hask pm.posts pid then
    (true, { pm with posts := delk pm.posts pid })
  else if hask pm.drafts pid then
    (true, { pm with drafts := delk pm.drafts pid })
  else
    (false, pm)

/-- `PostManager.schedule_post`: sets the time and `scheduled` status and
moves the post from the draft store to the active store when needed. -/
def pm_schedule_post (pm : PMState) (pid : String)
    (scheduled_time : DateTime) (now : DateTime) :
    Except String (Post × PMState) :=
  match get_post pm pid with
  | none => .error ("投稿が見つかりません: " ++ pid)
  | some post =>
    let post := { post with
      scheduled_time := some scheduled_time
      status := PostStatus.scheduled
      updated_at := now }
    if hask pm.drafts pid then
      .ok (post, { pm with
        posts := setk pm.posts pid post
        drafts := delk pm.drafts pid })
    else
      .ok (post, { pm with posts := setk pm.posts pid post })

/-- `PostManager.post_now`. `xPost` is the `x_service.post_tweet` oracle
applied to the post's body text: `.ok b` a boolean return, `.error m` a
raised exception with message `m`. The result's `.error` case is the
`PostError` re-raised to the caller (with the wrapped message the Python
code builds); the state component is the store after the in-place
mutations the code performs before raising. -/
def post_now (pm : PMState) (pid : String)
    (xPost : String → Except String Bool) (now : DateTime) :
    Except String Bool × PMState :=
  match get_post pm pid with
  | none =>
    -- `post` is None: the handler's `if post:` guard skips the mutation
    -- and the PostError is wrapped and re-raised.
    (.error ("投稿の実行に失敗しました: " ++ ("投稿が見つかりません: " ++ pid)), pm)
  | some post =>
    match xPost post.content.text with
    | .ok true =>
      let post := { post with
        status := PostStatus.posted
        posted_at := some now
        updated_at := now }
      if hask pm.drafts pid then
        (.ok true, { pm with
          posts := setk pm.posts pid post
          drafts := delk pm.drafts pid })
      else
        (.ok true, { pm with posts := setk pm.posts pid post })
    | .ok false =>
      let post := { post with
        status := PostStatus.failed
        error_message := some "X API投稿に失敗しました"
        updated_at := now }
      -- in-place object mutation: the post stays in whichever store holds it
      if hask pm.drafts pid then
        (.ok false, { pm with drafts := setk pm.drafts pid post })
      else
        (.ok false, { pm with posts := setk pm.posts pid post })
    | .error msg =>
      let post := { post with
        status := PostStatus.failed
        error_message := some msg
        updated_at := now }
      if hask pm.drafts pid then
        (.error ("投稿の実行に失敗しました: " ++ msg),
          { pm with drafts := setk pm.drafts pid post })
      else
        (.error ("投稿の実行に失敗しました: " ++ msg),
          { pm with posts := setk pm.posts pid post })

/-- `str.format(**kwargs)` on a tokenised template: literals pass through,
placeholders are looked up in the supplied variables; a missing variable
is a KeyError. -/
def formatTemplate : List Tok → List (String × String) → Except String String
  | [], _ => .ok ""
  | .lit s :: rest, vars =>
    (formatTemplate rest vars).map (fun t => s ++ t)
  | .ph name :: rest, vars =>
    match getk vars name with
    | none => .error ("KeyError: " ++ name)
    | some v => (formatTemplate rest vars).map (fun t => v ++ t)

/-- `PostManager.create_post_from_template`: NotFound when the template is
unknown; expands the body with the supplied variables; copies the
template's hashtags/mentions/post-type; delegates to `create_post` with
`scheduled_time` left at its `None` default. -/
def create_post_from_template (pm : PMState) (pid : String) (now : DateTime)
    (template_name : String) (vars : List (String × String)) :
    Except String (Post × PMState) :=
  match getk pm.templates template_name with
  | none =>
    .error ("テンプレートからの投稿作成に失敗しました: " ++
      ("テンプレートが見つかりません: " ++ template_name))
  | some template =>
    match formatTemplate template.content_template vars with
    | .error e => .error ("テンプレートからの投稿作成に失敗しました: " ++ e)
    | .ok content_text =>
      let content : PostContent :=
        { text := content_text
          hashtags := template.hashtags
          mentions := template.mentions }
      .ok (create_post pm pid now content template.post_type
        (some template_name) none)

/-- `PostSchedule`. The status is a raw string in the source
(`"pending"`, `"executed"`, `"failed"`, `"cancelled"`) and is kept as a
string here. -/
structure Schedule where
  id : String
  post_id : String
  scheduled_time : DateTime
  schedule_type : ScheduleType
  status : String
  created_at : DateTime
  executed_at : Option DateTime := none
  error_message : Option String := none
deriving DecidableEq, Repr

/-- `PostScheduler.schedule_post`: creates a fresh `pending` schedule and
stores it. `sid` is the generated uuid, `now` is `datetime.now()`. -/
def schedule_post (scheds : List (String × Schedule)) (sid : String)
    (now : DateTime) (post_id : String) (scheduled_time : DateTime)
    (schedule_type : ScheduleType) :
    Schedule × List (String × Schedule) :=
  let schedule : Schedule :=
    { id := sid
      post_id := post_id
      scheduled_time := scheduled_time
      schedule_type := schedule_type
      status := "pending"
      created_at := now }
  (schedule, setk scheds sid schedule)

/-- `PostScheduler.cancel_schedule`: `pending` → `cancelled` returning
true; returns false (store untouched) when the id is absent or the
schedule is in any other status. -/
def cancel_schedule (scheds : List (String × Schedule)) (sid : String) :
    Bool × List (String × Schedule) :=
  match getk scheds sid with
  | none => (false, scheds)
  | some schedule =>
    if schedule.status = "pending" then
      (true, setk scheds sid { schedule with status := "cancelled" })
    else
      (false, scheds)

/-- The due test of the scan pass: `status == "pending" and
scheduled_time <= now`. -/
def isDue (now : DateTime) (s : Schedule) : Bool :=
  s.status = "pending" && dtLe s.scheduled_time now

/-- The schedule mutation the scan pass performs for one due schedule,
given the outcome of `post_manager.post_now` (`.ok true` success,
`.ok false` a false return, `.error m` a raised exception). -/
def applyOutcome (s : Schedule) (res : Except String Bool) (now : DateTime) :
    Schedule :=
  match res with
  | .ok true => { s with status := "executed", executed_at := some now }
  | .ok false => { s with status := "failed", error_message := some "投稿実行に失敗しました" }
  | .error msg => { s with status := "failed", error_message := some msg }

/-- One iteration of the `for` loop of
`PostScheduler._check_scheduled_posts`: a due pending schedule is run
through `post_now` (threading the post store) and rewritten per the
outcome; any other schedule is left untouched. The third component is the
post id published, when one was. -/
def processOne (now : DateTime) (xPost : String → Except String Bool)
    (pm : PMState) (e : String × Schedule) :
    PMState × (String × Schedule) × Option String :=
  if isDue now e.2 then
    let r := post_now pm e.2.post_id xPost now
    (r.2, (e.1, applyOutcome e.2 r.1 now), some e.2.post_id)
  else
    (pm, e, none)

/-- `PostScheduler._check_scheduled_posts`: one scan pass over the whole
schedule store with a single `now`, threading the post store through the
publish calls. Returns the final post store, the rewritten schedule store
(same keys, same order) and the list of post ids published during the
pass. The per-schedule `try`/`except` converts a raised publish error into
a `failed` status and the loop continues, so the pass never aborts
early. -/
def check_scheduled_posts (now : DateTime)
    (xPost : String → Except String Bool) :
    PMState → List (String × Schedule) →
    PMState × List (String × Schedule) × List String
  | pm, [] => (pm, [], [])
  | pm, e :: rest =>
    let r := processOne now xPost pm e
    let rec' := check_scheduled_posts now xPost r.1 rest
    (rec'.1, r.2.1 :: rec'.2.1,
      (match r.2.2 with | none => [] | some pid => [pid]) ++ rec'.2.2)

/-- `ScheduleConfig`. A Python `days_of_week`/`optimal_time_slots` of
`None` is modelled as the empty list (both are used only through
truthiness tests). -/
structure ScheduleConfig where
  schedule_type : ScheduleType
  start_time : DateTime
  end_time : Option DateTime := none
  interval_hours : Nat := 24
  days_of_week : List Nat := []
  optimal_time_slots : List OptimalTimeSlot := []
  max_posts_per_day : Nat := 5
  enabled : Bool := true
deriving DecidableEq, Repr

/-- The statistics record returned by `PostScheduler.get_statistics`.
Python float arithmetic is modelled with exact rationals. -/
structure Stats where
  total_schedules : Nat
  pending_schedules : Nat
  executed_schedules : Nat
  failed_schedules : Nat
  cancelled_schedules : Nat
  today_schedules : Nat
  success_rate : ℚ
deriving DecidableEq, Repr

/-- `PostScheduler.get_statistics`. `today` is `datetime.now().date()`. -/
def get_statistics (scheds : List (String × Schedule))
    (today : Nat × Nat × Nat) : Stats :=
  let vals := scheds.map (fun e => e.2)
  let total := vals.length
  let executed := (vals.filter (fun s => s.status = "executed")).length
  { total_schedules := total
    pending_schedules := (vals.filter (fun s => s.status = "pending")).length
    executed_schedules := executed
    failed_schedules := (vals.filter (fun s => s.status = "failed")).length
    cancelled_schedules := (vals.filter (fun s => s.status = "cancelled")).length
    today_schedules :=
      (vals.filter (fun s => s.scheduled_time.dateTriple = today)).length
    success_rate :=
      if total > 0 then (executed : ℚ) / (total : ℚ) * 100 else 0 }

/-- Combined state threaded through recurring generation: the post
manager's stores, the scheduler's schedule store and the fresh-id supply
modelling `uuid4`. -/
structure SysState where
  pm : PMState
  scheds : List (String × Schedule)
  nextId : Nat
deriving DecidableEq, Repr

/-- Fresh post id from the supply. -/
def freshPostId (n : Nat) : String := "post-" ++ toString n

/-- Fresh schedule id from the supply. -/
def freshSchedId (n : Nat) : String := "sched-" ++ toString n

/-- Two-digit zero padding for `strftime`. -/
def pad2 (n : Nat) : String := if n < 10 then "0" ++ toString n else toString n

/-- `current_date.strftime("%Y-%m-%d")` (years of interest are
four-digit). -/
def DateTime.dateString (d : DateTime) : String :=
  toString d.year ++ "-" ++ pad2 d.month ++ "-" ++ pad2 d.day

/-- The source's simplified month step
(`current_date.replace(month=month+1)`, rolling the year over from
December): raises ValueError when the day does not exist in the next
month. -/
def addMonthSimple (d : DateTime) : Except String DateTime :=
  if d.month = 12 then .ok { d with year := d.year + 1, month := 1 }
  else if d.day ≤ daysInMonth d.year (d.month + 1) then
    .ok { d with month := d.month + 1 }
  else .error "ValueError: day is out of range for month"

/-- The inner `for optimal_time in optimal_times` loop of
`PostScheduler.create_recurring_schedule` for one candidate day: for each
candidate time, create a post from the template (variables
`date=current_date.strftime("%Y-%m-%d")`), schedule it, append the
schedule to the cumulative list, and stop this day's loop as soon as the
cumulative list length has reached `max_posts_per_day` (checked after each
append). An error from post creation propagates out of the whole
generation. -/
def emitDay (maxPosts : Nat) (stype : ScheduleType) (template : String)
    (day : DateTime) (now : DateTime) :
    List DateTime → SysState → List Schedule →
    Except String (List Schedule × SysState)
  | [], st, acc => .ok (acc, st)
  | t :: ts, st, acc =>
    match create_post_from_template st.pm (freshPostId st.nextId) now
      template [("date", day.dateString)] with
    | .error e => .error e
    | .ok r =>
      let st1 : SysState := { st with pm := r.2, nextId := st.nextId + 1 }
      let sr := schedule_post st1.scheds (freshSchedId st1.nextId) now
        r.1.id t stype
      let st2 : SysState := { st1 with scheds := sr.2, nextId := st1.nextId + 1 }
      let acc2 := acc ++ [sr.1]
      if maxPosts ≤ acc2.length then .ok (acc2, st2)
      else emitDay maxPosts stype template day now ts st2 acc2

/-- The `while` loop of `PostScheduler.create_recurring_schedule`,
day-stepped with explicit fuel; `none` models non-termination (the Python
loop runs forever e.g. when `end_time` is None, or for `once` configs
whose date never advances). `slots` is the scheduler's *active*
`self.config.optimal_time_slots` — the source calls
`self.suggest_optimal_times(current_date)` (default 3 suggestions), which
reads the active config, not the `cfg` argument. -/
def recurGo (slots : List OptimalTimeSlot) (now : DateTime)
    (template : String) (cfg : ScheduleConfig) :
    Nat → DateTime → SysState → List Schedule →
    Option (Except String (List Schedule × SysState))
  | 0, _, _, _ => none
  | fuel + 1, cur, st, acc =>
    if (match cfg.end_time with | none => true | some e => dtLe cur e) then
      if !cfg.days_of_week.isEmpty && !(cfg.days_of_week.contains cur.wkday) then
        recurGo slots now template cfg fuel (cur.addDays 1) st acc
      else
        match emitDay cfg.max_posts_per_day cfg.schedule_type template cur now
          (suggest_optimal_times slots now cur 3) st acc with
        | .error e => some (.error e)
        | .ok r =>
          match cfg.schedule_type with
          | .daily => recurGo slots now template cfg fuel (cur.addDays 1) r.2 r.1
          | .weekly => recurGo slots now template cfg fuel (cur.addDays 7) r.2 r.1
          | .monthly =>
            match addMonthSimple cur with
            | .error e => some (.error e)
            | .ok nxt => recurGo slots now template cfg fuel nxt r.2 r.1
          | .once => recurGo slots now template cfg fuel cur r.2 r.1
    else some (.ok (acc, st))

/-- `PostScheduler.create_recurring_schedule`: run the generation loop
from `cfg.start_time` with an empty cumulative list; any exception is
re-raised as a `SchedulerError` with the wrapping message. -/
def create_recurring_schedule (slots : List OptimalTimeSlot) (now : DateTime)
    (template : String) (cfg : ScheduleConfig) (fuel : Nat) (st : SysState) :
    Option (Except String (List Schedule × SysState)) :=
  match recurGo slots now template cfg fuel cfg.start_time st [] with
  | none => none
  | some (.error e) =>
    some (.error ("定期的なスケジュールの作成に失敗しました: " ++ e))
  | some (.ok r) => some (.ok r)

/-- The schedule list of a completed, successful generation run (empty
for an error or exhausted fuel). -/
def resultSchedules
    (r : Option (Except String (List Schedule × SysState))) : List Schedule :=
  match r with
  | some (.ok p) => p.1
  | _ => []

/-! ## Helper lemmas about the keyed-store operations -/

theorem getk_setk_self {α : Type} (m : List (String × α)) (k : String) (v : α) :
    getk (setk m k v) k = some v := by
  induction m with
  | nil => simp [getk, setk]
  | cons e rest ih =>
    by_cases h : e.1 = k
    · simp [getk, setk, h]
    · simpa [getk, setk, h] using ih

theorem getk_setk_ne {α : Type} (m : List (String × α)) (k k' : String) (v : α)
    (h : k ≠ k') : getk (setk m k v) k' = getk m k' := by
  induction m with
  | nil => simp [getk, setk, h]
  | cons e rest ih =>
    by_cases he : e.1 = k
    · subst he
      simp [getk, setk, h]
    · by_cases he' : e.1 = k'
      · simp [getk, setk, he, he', Ne.symm h]
      · simpa [getk, setk, he, he'] using ih

theorem mem_setk {α : Type} (m : List (String × α)) (k : String) (v : α) :
    ∀ e ∈ setk m k v, e ∈ m ∨ e = (k, v) := by
  induction m with
  | nil => simp [setk]
  | cons e' rest ih =>
    intro e he
    by_cases h : e'.1 = k
    · simp only [setk, h, if_pos rfl] at he
      rcases List.mem_cons.mp he with h1 | h1
      · exact Or.inr h1
      · exact Or.inl (List.mem_cons_of_mem _ h1)
    · simp only [setk, h, if_neg h] at he
      rcases List.mem_cons.mp he with h1 | h1
      · exact Or.inl (h1 ▸ List.mem_cons_self _ _)
      · rcases ih e h1 with h2 | h2
        · exact Or.inl (List.mem_cons_of_mem _ h2)
        · exact Or.inr h2

theorem mem_delk {α : Type} (m : List (String × α)) (k : String) :
    ∀ e ∈ delk m k, e ∈ m := by
  induction m with
  | nil => simp [delk]
  | cons e' rest ih =>
    intro e he
    by_cases h : e'.1 = k
    · simp only [delk, if_pos h] at he
      exact List.mem_cons_of_mem _ (ih e he)
    · simp only [delk, if_neg h] at he
      rcases List.mem_cons.mp he with h1 | h1
      · exact h1 ▸ List.mem_cons_self _ _
      · exact List.mem_cons_of_mem _ (ih e h1)

theorem getk_delk_self {α : Type} (m : List (String × α)) (k : String) :
    getk (delk m k) k = none := by
  induction m with
  | nil => simp [getk, delk]
  | cons e rest ih =>
    by_cases h : e.1 = k
    · simpa [delk, h] using ih
    · simpa [getk, delk, h] using ih

theorem getk_delk_ne {α : Type} (m : List (String × α)) (k k' : String)
    (h : k ≠ k') : getk (delk m k) k' = getk m k' := by
  induction m with
  | nil => simp [getk, delk]
  | cons e rest ih =>
    by_cases he : e.1 = k
    · subst he
      simpa [getk, delk, h, Ne.symm h] using ih
    · by_cases he' : e.1 = k'
      · simp [getk, delk, he, he', Ne.symm h]
      · simpa [getk, delk, he, he'] using ih

theorem getk_eq_none_iff {α : Type} (m : List (String × α)) (k : String) :
    getk m k = none ↔ ∀ e ∈ m, e.1 ≠ k := by
  induction m with
  | nil => simp [getk]
  | cons e rest ih =>
    by_cases h : e.1 = k
    · simp [getk, h]
    · simp [getk, h, ih]

theorem getk_isSome_of_mem {α : Type} (m : List (String × α)) (e : String × α)
    (h : e ∈ m) : (getk m e.1).isSome := by
  induction m with
  | nil => simp at h
  | cons e' rest ih =>
    by_cases he : e'.1 = e.1
    · simp [getk, he]
    · rcases List.mem_cons.mp h with h1 | h1
      · exact absurd (congrArg Prod.fst h1.symm) he
      · simpa [getk, he] using ih h1

/-! ## Concrete example values used by witnesses and counterexamples -/

/-- Example instant: 2025-01-01 00:00:00. -/
def dt0 : DateTime := ⟨2025, 1, 1, 0, 0, 0⟩

/-- Example instant: 2025-01-02 08:00:00. -/
def dt1 : DateTime := ⟨2025, 1, 2, 8, 0, 0⟩

/-- Example post content. -/
def contentHello : PostContent := { text := "Hello world" }

/-- Empty post-manager state. -/
def pmEmpty : PMState := ⟨[], [], []⟩

/-- Example schedule already in the terminal `executed` status. -/
def schedExec : Schedule :=
  { id := "s1", post_id := "p1", scheduled_time := dt1, schedule_type := .once,
    status := "executed", created_at := dt0 }

/-! ## C3: create_post status and partition -/

/-- Claim C3: for every call to `create_post` (with a fresh id, as uuid4
generation guarantees), the returned Post has status `scheduled` iff a
non-null `scheduled_time` was supplied (`draft` otherwise), and the post
is stored in the drafts partition exactly when `scheduled_time` is None
and in the posts partition exactly when it is not. -/
theorem c3_create_post_status_and_partition (pm : PMState) (pid : String)
    (now : DateTime) (content : PostContent) (pt : PostType)
    (tn : Option String) (sched : Option DateTime)
    (hfresh : getk pm.posts pid = none ∧ getk pm.drafts pid = none) :
    ((create_post pm pid now content pt tn sched).1.status = PostStatus.scheduled ↔ sched ≠ none) ∧
    ((create_post pm pid now content pt tn sched).1.status = PostStatus.draft ↔ sched = none) ∧
    (getk (create_post pm pid now content pt tn sched).2.drafts pid =
       some (create_post pm pid now content pt tn sched).1 ↔ sched = none) ∧
    (getk (create_post pm pid now content pt tn sched).2.posts pid =
       some (create_post pm pid now content pt tn sched).1 ↔ sched ≠ none) := by
  obtain ⟨h1, h2⟩ := hfresh
  cases sched with
  | none => simp [create_post, getk_setk_self, h1]
  | some t => simp [create_post, getk_setk_self, h2]

/-- Witness for C3: a concrete draft creation with no scheduled time lands
in the drafts partition. -/
theorem c3_witness :
    (getk pmEmpty.posts "p1" = none ∧ getk pmEmpty.drafts "p1" = none) ∧
    getk (create_post pmEmpty "p1" dt0 contentHello .text none none).2.drafts "p1" =
      some (create_post pmEmpty "p1" dt0 contentHello .text none none).1 :=
  ⟨⟨rfl, rfl⟩,
    ((c3_create_post_status_and_partition pmEmpty "p1" dt0 contentHello .text none none
      ⟨rfl, rfl⟩).2.2.1).mpr rfl⟩

/-! ## C8: content validation on create_post (code bug) -/

/-- Claim C8 (code bug): the spec and the repository's own test
`test_post_content_validation` say `create_post` rejects empty content,
but the code performs no validation at all. This theorem evaluates the
embedded code at the failing input: a call with empty body text succeeds,
returning a draft Post with empty text that is stored in the drafts
partition (no error is raised and a Post is created). -/
theorem c8_empty_content_creates_post :
    (create_post pmEmpty "p1" dt0 { text := "" } .text none none).1.content.text = "" ∧
    (create_post pmEmpty "p1" dt0 { text := "" } .text none none).1.status = PostStatus.draft ∧
    getk (create_post pmEmpty "p1" dt0 { text := "" } .text none none).2.drafts "p1" =
      some (create_post pmEmpty "p1" dt0 { text := "" } .text none none).1 := by
  decide

/-! ## C7: cancel_schedule -/

/-- Claim C7: `cancel_schedule` returns true and flips the schedule from
`pending` to `cancelled` exactly when the id exists with a pending
schedule; in every other case it returns false and leaves the store
unchanged; on success only the targeted entry changes. -/
theorem c7_cancel_schedule_spec (scheds : List (String × Schedule)) (sid : String) :
    ((cancel_schedule scheds sid).1 = true ↔
      ∃ s, getk scheds sid = some s ∧ s.status = "pending") ∧
    ((cancel_schedule scheds sid).1 = false → (cancel_schedule scheds sid).2 = scheds) ∧
    (∀ s, getk scheds sid = some s → s.status = "pending" →
      (cancel_schedule scheds sid).2 = setk scheds sid { s with status := "cancelled" } ∧
      ∀ k, k ≠ sid → getk (cancel_schedule scheds sid).2 k = getk scheds k) := by
  cases hg : getk scheds sid with
  | none =>
    refine ⟨?_, fun _ => ?_, ?_⟩
    · simp [cancel_schedule, hg]
    · simp [cancel_schedule, hg]
    · intro s hgs
      exact absurd hgs (by simp)
  | some s =>
    by_cases hs : s.status = "pending"
    · refine ⟨?_, ?_, ?_⟩
      · simp [cancel_schedule, hg, hs]
      · simp [cancel_schedule, hg, hs]
      · intro s' hgs' hps'
        injection hgs' with hss
        subst hss
        refine ⟨by simp [cancel_schedule, hg, hs], ?_⟩
        intro k hk
        have h2 : (cancel_schedule scheds sid).2 =
            setk scheds sid { s with status := "cancelled" } := by
          simp [cancel_schedule, hg, hs]
        rw [h2]
        exact getk_setk_ne _ _ _ _ (Ne.symm hk)
    · refine ⟨?_, fun _ => ?_, ?_⟩
      · simp only [cancel_schedule, hg, hs]
        constructor
        · intro hfalse
          simp at hfalse
        · rintro ⟨s', hgs', hps'⟩
          injection hgs' with hss
          exact absurd (hss ▸ hps') hs
      · simp [cancel_schedule, hg, hs]
      · intro s' hgs' hps'
        injection hgs' with hss
        exact absurd (hss ▸ hps') hs

/-- Witness for C7: cancelling an already-executed schedule returns false
and leaves the store unchanged (spec Scenario D). -/
theorem c7_witness :
    (cancel_schedule [("s1", schedExec)] "s1").1 = false ∧
    (cancel_schedule [("s1", schedExec)] "s1").2 = [("s1", schedExec)] := by
  have h := c7_cancel_schedule_spec [("s1", schedExec)] "s1"
  have hfalse : (cancel_schedule [("s1", schedExec)] "s1").1 = false := by decide
  exact ⟨hfalse, h.2.1 hfalse⟩

/-! ## C4: suggest_optimal_times -/

/-- Claim C4: `suggest_optimal_times` maps each day-part of the active
config to its fixed clock time on the given date (morning 08:00, lunch
12:30, evening 19:00, night 22:00), never returns a timestamp at or
before the current instant, returns at most `n` entries, and preserves
the input day-part ordering (the output is a sublist of the slot-time
image of the input slots). -/
theorem c4_suggest_optimal_times_spec (slots : List OptimalTimeSlot)
    (now date : DateTime) (n : Nat) :
    (∀ t ∈ suggest_optimal_times slots now date n, dtLt now t = true) ∧
    (suggest_optimal_times slots now date n).length ≤ n ∧
    (suggest_optimal_times slots now date n).Sublist (slots.map (slotTimeOn date)) ∧
    slotTimeOn date .morning = { date with hour := 8, minute := 0, second := 0 } ∧
    slotTimeOn date .lunch = { date with hour := 12, minute := 30, second := 0 } ∧
    slotTimeOn date .evening = { date with hour := 19, minute := 0, second := 0 } ∧
    slotTimeOn date .night = { date with hour := 22, minute := 0, second := 0 } := by
  refine ⟨?_, ?_, ?_, rfl, rfl, rfl, rfl⟩
  · intro t ht
    by_cases h : slots.isEmpty
    · simp [suggest_optimal_times, h] at ht
    · simp only [suggest_optimal_times, h, Bool.false_eq_true, if_false] at ht
      exact (List.mem_filter.mp (List.mem_of_mem_take ht)).2
  · by_cases h : slots.isEmpty
    · simp [suggest_optimal_times, h]
    · simp only [suggest_optimal_times, h, Bool.false_eq_true, if_false]
      exact List.length_take_le n _
  · by_cases h : slots.isEmpty
    · simp [suggest_optimal_times, h]
    · simp only [suggest_optimal_times, h, Bool.false_eq_true, if_false]
      exact ((List.take_sublist _ _).trans (List.filter_sublist _))

/-- Witness for C4: the morning suggestion for 2025-01-02 is strictly
after a `now` of 2025-01-01 00:00. -/
theorem c4_witness :
    dtLt dt0 (slotTimeOn dt1 .morning) = true :=
  (c4_suggest_optimal_times_spec [.morning] dt0 dt1 3).1 (slotTimeOn dt1 .morning)
    (by decide)

/-! ## C2: the max_posts_per_day cap -/

/-- Template whose body is `"post {date}"`, matching the variables the
recurring generator supplies. -/
def tmplDate : PostTemplate :=
  { name := "t", description := "", content_template := [.lit "post ", .ph "date"],
    hashtags := [], mentions := [], post_type := .text }

/-- Post-manager state holding only the template `"t"`. -/
def pmTmpl : PMState := ⟨[], [], [("t", tmplDate)]⟩

/-- Fresh combined state for generation runs. -/
def sysRef : SysState := ⟨pmTmpl, [], 0⟩

/-- Daily config over the two days 2025-01-02 and 2025-01-03 with
`max_posts_per_day = 1` and no weekday filter. -/
def cfgC2 : ScheduleConfig :=
  { schedule_type := .daily, start_time := ⟨2025, 1, 2, 0, 0, 0⟩,
    end_time := some ⟨2025, 1, 3, 23, 59, 0⟩, max_posts_per_day := 1 }

/-- Counterexample to claim C2: with `max_posts_per_day = 1`, active
slots morning and evening, and a two-day window, the generation run
completes normally and returns 2 schedules — more than
`max_posts_per_day` — because the cap check only breaks the inner
per-day loop, and the next day appends again before re-checking. -/
theorem c2_counterexample :
    cfgC2.max_posts_per_day = 1 ∧
    (resultSchedules (create_recurring_schedule [.morning, .evening] dt0 "t"
      cfgC2 10 sysRef)).length = 2 := by
  decide

/-- Claim C2 as amended: the cumulative-count cap bounds only the current
day's inner emission loop of `create_recurring_schedule` (modelled by
`emitDay`): a candidate day entered with fewer than `max_posts_per_day`
schedules emitted so far ends with at most `max_posts_per_day` cumulative
schedules, because the check fires after each append; the outer loop then
continues to later days, so the whole run's list may exceed the cap (one
extra schedule per later eligible day), as the counterexample shows. -/
theorem c2_amended_day_cap (maxPosts : Nat) (stype : ScheduleType)
    (template : String) (day now : DateTime) (times : List DateTime)
    (st : SysState) (acc : List Schedule) (hacc : acc.length < maxPosts) :
    ∀ res, emitDay maxPosts stype template day now times st acc = .ok res →
      res.1.length ≤ maxPosts := by
  induction times generalizing st acc with
  | nil =>
    intro res hres
    simp only [emitDay] at hres
    injection hres with h
    subst h
    exact Nat.le_of_lt hacc
  | cons t ts ih =>
    intro res hres
    simp only [emitDay] at hres
    cases hc : create_post_from_template st.pm (freshPostId st.nextId) now
        template [("date", day.dateString)] with
    | error e =>
      simp only [hc] at hres
      cases hres
    | ok r =>
      simp only [hc] at hres
      split at hres
      next h =>
        injection hres with h2
        subst h2
        simp only [List.length_append, List.length_cons, List.length_nil]
        omega
      next h =>
        refine ih _ _ ?_ res hres
        simp only [List.length_append, List.length_cons, List.length_nil] at h ⊢
        omega

/-- Length of the schedule list of a successful inner-loop run. -/
def okLen (r : Except String (List Schedule × SysState)) : Nat :=
  match r with
  | .ok p => p.1.length
  | .error _ => 0

/-- Witness for the amended C2: a concrete day entered with an empty
cumulative list and cap 1 emits at most one schedule. -/
theorem c2_witness :
    okLen (emitDay 1 ScheduleType.daily "t" dt1 dt0
      [slotTimeOn dt1 .morning, slotTimeOn dt1 .evening] sysRef []) ≤ 1 := by
  cases heq : emitDay 1 ScheduleType.daily "t" dt1 dt0
      [slotTimeOn dt1 .morning, slotTimeOn dt1 .evening] sysRef [] with
  | error e => simp [okLen]
  | ok r =>
    simpa [okLen, heq] using
      c2_amended_day_cap 1 .daily "t" dt1 dt0
        [slotTimeOn dt1 .morning, slotTimeOn dt1 .evening] sysRef []
        (by decide) r heq

/-! ## C6: recurring generation respects days_of_week -/


/-- Suggestions keep the calendar date of the input day, hence its
weekday. -/
theorem suggest_wkday (slots : List OptimalTimeSlot) (now date : DateTime) (n : Nat) :
    ∀ t ∈ suggest_optimal_times slots now date n, t.wkday = date.wkday := by
  intro t ht
  by_cases h : slots.isEmpty
  · simp [suggest_optimal_times, h] at ht
  · simp only [suggest_optimal_times, h, Bool.false_eq_true, if_false] at ht
    have h1 := (List.mem_filter.mp (List.mem_of_mem_take ht)).1
    rcases List.mem_map.mp h1 with ⟨slot, _, rfl⟩
    cases slot <;> rfl

/-- Any property of the candidate times (and of the already-accumulated
schedules) carries over to the scheduled times of the inner per-day
loop's output schedules. -/
theorem emitDay_sched_time_prop (P : DateTime → Prop) (maxPosts : Nat)
    (stype : ScheduleType) (template : String) (day now : DateTime) :
    ∀ (times : List DateTime) (st : SysState) (acc : List Schedule),
      (∀ s ∈ acc, P s.scheduled_time) → (∀ t ∈ times, P t) →
      ∀ res, emitDay maxPosts stype template day now times st acc = .ok res →
        ∀ s ∈ res.1, P s.scheduled_time := by
  intro times
  induction times with
  | nil =>
    intro st acc hacc _ res hres
    simp only [emitDay] at hres
    injection hres with h
    subst h
    exact hacc
  | cons t ts ih =>
    intro st acc hacc htimes res hres
    simp only [emitDay] at hres
    cases hc : create_post_from_template st.pm (freshPostId st.nextId) now
        template [("date", day.dateString)] with
    | error e =>
      simp only [hc] at hres
      cases hres
    | ok r =>
      simp only [hc] at hres
      have haccx : ∀ s ∈ acc ++
          [(schedule_post st.scheds (freshSchedId (st.nextId + 1)) now r.1.id t stype).1],
          P s.scheduled_time := by
        intro s hsm
        rcases List.mem_append.mp hsm with hm | hm
        · exact hacc s hm
        · rcases List.mem_singleton.mp hm with rfl
          exact htimes t (List.mem_cons_self _ _)
      split at hres
      next h =>
        injection hres with h2
        subst h2
        exact haccx
      next h =>
        exact ih _ _ haccx (fun t' ht' => htimes t' (List.mem_cons_of_mem _ ht')) res hres

/-- Generation-loop invariant: with a non-empty weekday filter, every
schedule in a completed run's list targets an allowed weekday. -/
theorem recurGo_weekday (slots : List OptimalTimeSlot) (now : DateTime)
    (template : String) (cfg : ScheduleConfig) (hdow : cfg.days_of_week ≠ []) :
    ∀ (fuel : Nat) (cur : DateTime) (st : SysState) (acc : List Schedule),
      (∀ s ∈ acc, s.scheduled_time.wkday ∈ cfg.days_of_week) →
      ∀ l st', recurGo slots now template cfg fuel cur st acc = some (.ok (l, st')) →
        ∀ s ∈ l, s.scheduled_time.wkday ∈ cfg.days_of_week := by
  intro fuel
  induction fuel with
  | zero =>
    intro cur st acc hacc l st' hrun
    simp [recurGo] at hrun
  | succ n ih =>
    intro cur st acc hacc l st' hrun
    simp only [recurGo] at hrun
    split at hrun
    · split at hrun
      · exact ih _ _ _ hacc l st' hrun
      · next hguard =>
        have hw : cur.wkday ∈ cfg.days_of_week := by
          by_contra hnot
          exact hguard (by simp [List.isEmpty_iff, hdow, hnot])
        cases hemit : emitDay cfg.max_posts_per_day cfg.schedule_type template cur now
            (suggest_optimal_times slots now cur 3) st acc with
        | error e =>
          simp only [hemit] at hrun
          exact absurd hrun (by simp)
        | ok r =>
          simp only [hemit] at hrun
          have haccr : ∀ s ∈ r.1, s.scheduled_time.wkday ∈ cfg.days_of_week := by
            refine emitDay_sched_time_prop
              (fun d => d.wkday ∈ cfg.days_of_week) cfg.max_posts_per_day
              cfg.schedule_type template cur now _ st acc hacc ?_ r hemit
            intro t' ht'
            rw [suggest_wkday slots now cur 3 t' ht']
            exact hw
          cases hst : cfg.schedule_type with
          | daily =>
            rw [hst] at hrun
            exact ih _ _ _ haccr l st' hrun
          | weekly =>
            rw [hst] at hrun
            exact ih _ _ _ haccr l st' hrun
          | monthly =>
            rw [hst] at hrun
            cases hm : addMonthSimple cur with
            | error e =>
              simp only [hm] at hrun
              exact absurd hrun (by simp)
            | ok nxt =>
              simp only [hm] at hrun
              exact ih _ _ _ haccr l st' hrun
          | once =>
            rw [hst] at hrun
            exact ih _ _ _ haccr l st' hrun
    · injection hrun with h
      injection h with h2
      injection h2 with h3 h4
      subst h3
      exact hacc

/-- Claim C6: for every ScheduleConfig whose `days_of_week` is non-empty,
every schedule produced by `create_recurring_schedule` has a
`scheduled_time` whose date's weekday is a member of
`config.days_of_week`. -/
theorem c6_recurring_respects_days_of_week (slots : List OptimalTimeSlot)
    (now : DateTime) (template : String) (cfg : ScheduleConfig) (fuel : Nat)
    (st : SysState) (hdow : cfg.days_of_week ≠ []) :
    ∀ s ∈ resultSchedules (create_recurring_schedule slots now template cfg fuel st),
      s.scheduled_time.wkday ∈ cfg.days_of_week := by
  intro s hs
  cases hr : recurGo slots now template cfg fuel cfg.start_time st [] with
  | none =>
    simp [create_recurring_schedule, hr, resultSchedules] at hs
  | some r =>
    cases r with
    | error e =>
      simp [create_recurring_schedule, hr, resultSchedules] at hs
    | ok p =>
      have hl : resultSchedules (create_recurring_schedule slots now template cfg fuel st) = p.1 := by
        simp [create_recurring_schedule, hr, resultSchedules]
      rw [hl] at hs
      exact recurGo_weekday slots now template cfg hdow fuel cfg.start_time st []
        (by simp) p.1 p.2 (by rw [hr]) s hs

/-- Saturday/Sunday-only config over the week 2025-01-06 (Monday) to
2025-01-12 (Sunday), spec Scenario E. -/
def cfgC6 : ScheduleConfig :=
  { schedule_type := .daily, start_time := ⟨2025, 1, 6, 0, 0, 0⟩,
    end_time := some ⟨2025, 1, 12, 23, 59, 0⟩, days_of_week := [5, 6],
    max_posts_per_day := 5 }

/-- Witness for C6: the first schedule of the concrete Scenario E run
(Sat/Sun filter over one week) targets an allowed weekday. -/
theorem c6_witness :
    ((resultSchedules (create_recurring_schedule [.morning] dt0 "t" cfgC6 20 sysRef)).headD
      schedExec).scheduled_time.wkday ∈ cfgC6.days_of_week := by
  refine c6_recurring_respects_days_of_week [.morning] dt0 "t" cfgC6 20 sysRef
    (by decide) _ ?_
  decide

/-! ## C10: template-created posts are drafts -/


/-- A successful `create_post_from_template` always produces a draft: the
delegation to `create_post` leaves `scheduled_time` at its None default,
so the new post has draft status, no scheduled time, and lands in the
drafts partition, extending it by exactly the one new entry. -/
theorem cpft_draft (pm : PMState) (pid : String) (now : DateTime)
    (tname : String) (vars : List (String × String)) :
    ∀ post pm', create_post_from_template pm pid now tname vars = .ok (post, pm') →
      post.status = PostStatus.draft ∧ post.scheduled_time = none ∧
      post.id = pid ∧
      getk pm'.drafts post.id = some post ∧ pm'.posts = pm.posts ∧
      pm'.templates = pm.templates ∧
      ∀ e ∈ pm'.drafts, e ∈ pm.drafts ∨ e = (post.id, post) := by
  intro post pm' h
  cases ht : getk pm.templates tname with
  | none =>
    simp only [create_post_from_template, ht] at h
    cases h
  | some tmpl =>
    simp only [create_post_from_template, ht] at h
    cases hf : formatTemplate tmpl.content_template vars with
    | error e =>
      simp only [hf] at h
      cases h
    | ok txt =>
      simp only [hf] at h
      injection h with h2
      simp only [create_post, if_pos rfl] at h2
      injection h2 with hpost hpm
      subst hpost
      subst hpm
      refine ⟨rfl, rfl, rfl, getk_setk_self _ _ _, rfl, rfl, ?_⟩
      exact mem_setk pm.drafts pid _

/-- The inner per-day emission loop never touches the active-post store
and only ever adds unscheduled drafts to the draft store. -/
theorem emitDay_drafts (maxPosts : Nat) (stype : ScheduleType)
    (template : String) (day now : DateTime) :
    ∀ (times : List DateTime) (st : SysState) (acc : List Schedule) (res : List Schedule × SysState),
      emitDay maxPosts stype template day now times st acc = .ok res →
      res.2.pm.posts = st.pm.posts ∧
      res.2.pm.templates = st.pm.templates ∧
      ∀ e ∈ res.2.pm.drafts, e ∈ st.pm.drafts ∨
        (e.2.status = PostStatus.draft ∧ e.2.scheduled_time = none) := by
  intro times
  induction times with
  | nil =>
    intro st acc res hres
    simp only [emitDay] at hres
    injection hres with h
    subst h
    exact ⟨rfl, rfl, fun e he => Or.inl he⟩
  | cons t ts ih =>
    intro st acc res hres
    simp only [emitDay] at hres
    cases hc : create_post_from_template st.pm (freshPostId st.nextId) now
        template [("date", day.dateString)] with
    | error e =>
      simp only [hc] at hres
      cases hres
    | ok r =>
      simp only [hc] at hres
      obtain ⟨hst, hsch, hid, hget, hposts, htmpl, hdr⟩ :=
        cpft_draft st.pm (freshPostId st.nextId) now template
          [("date", day.dateString)] r.1 r.2 (by rw [hc])
      split at hres
      next h =>
        injection hres with h2
        subst h2
        refine ⟨hposts, htmpl, ?_⟩
        intro e he
        rcases hdr e he with hm | hm
        · exact Or.inl hm
        · exact Or.inr (by rw [hm]; exact ⟨hst, hsch⟩)
      next h =>
        obtain ⟨ihposts, ihtmpl, ihdr⟩ := ih _ _ res hres
        refine ⟨ihposts.trans hposts, ihtmpl.trans htmpl, ?_⟩
        intro e he
        rcases ihdr e he with hm | hm
        · rcases hdr e hm with hm2 | hm2
          · exact Or.inl hm2
          · exact Or.inr (by rw [hm2]; exact ⟨hst, hsch⟩)
        · exact Or.inr hm

/-- The whole generation loop never touches the active-post store and
only ever adds unscheduled drafts to the draft store. -/
theorem recurGo_drafts (slots : List OptimalTimeSlot) (now : DateTime)
    (template : String) (cfg : ScheduleConfig) :
    ∀ (fuel : Nat) (cur : DateTime) (st : SysState) (acc : List Schedule) (l : List Schedule) (st' : SysState),
      recurGo slots now template cfg fuel cur st acc = some (.ok (l, st')) →
      st'.pm.posts = st.pm.posts ∧
      ∀ e ∈ st'.pm.drafts, e ∈ st.pm.drafts ∨
        (e.2.status = PostStatus.draft ∧ e.2.scheduled_time = none) := by
  intro fuel
  induction fuel with
  | zero =>
    intro cur st acc l st' hrun
    simp [recurGo] at hrun
  | succ n ih =>
    intro cur st acc l st' hrun
    simp only [recurGo] at hrun
    split at hrun
    · split at hrun
      · exact ih _ _ _ l st' hrun
      · cases hemit : emitDay cfg.max_posts_per_day cfg.schedule_type template cur now
            (suggest_optimal_times slots now cur 3) st acc with
        | error e =>
          simp only [hemit] at hrun
          exact absurd hrun (by simp)
        | ok r =>
          simp only [hemit] at hrun
          obtain ⟨hposts, htmpl, hdr⟩ :=
            emitDay_drafts cfg.max_posts_per_day cfg.schedule_type template cur now
              _ st acc r hemit
          have step : ∀ nxt, recurGo slots now template cfg n nxt r.2 r.1 = some (.ok (l, st')) →
              st'.pm.posts = st.pm.posts ∧
              ∀ e ∈ st'.pm.drafts, e ∈ st.pm.drafts ∨
                (e.2.status = PostStatus.draft ∧ e.2.scheduled_time = none) := by
            intro nxt hr
            obtain ⟨ihposts, ihdr⟩ := ih nxt r.2 r.1 l st' hr
            refine ⟨ihposts.trans hposts, ?_⟩
            intro e he
            rcases ihdr e he with hm | hm
            · exact hdr e hm
            · exact Or.inr hm
          cases hst : cfg.schedule_type with
          | daily =>
            rw [hst] at hrun
            exact step _ hrun
          | weekly =>
            rw [hst] at hrun
            exact step _ hrun
          | monthly =>
            rw [hst] at hrun
            cases hm : addMonthSimple cur with
            | error e =>
              simp only [hm] at hrun
              exact absurd hrun (by simp)
            | ok nxt =>
              simp only [hm] at hrun
              exact step _ hrun
          | once =>
            rw [hst] at hrun
            exact step _ hrun
    · injection hrun with h
      injection h with h2
      injection h2 with h3 h4
      subst h4
      exact ⟨rfl, fun e he => Or.inl he⟩

/-- Claim C10: every Post created through `create_post_from_template` —
including every post emitted during recurring-schedule generation — is
created with `scheduled_time = None` and draft status and is stored in
the drafts partition; the recurring generator binds the target time only
to the PostSchedule it creates, never to the Post itself (the active-post
partition is untouched by a generation run, and every new draft entry is
an unscheduled draft). -/
theorem c10_generated_posts_are_drafts :
    (∀ (pm : PMState) (pid : String) (now : DateTime) (tname : String)
        (vars : List (String × String)) (post : Post) (pm' : PMState),
      create_post_from_template pm pid now tname vars = .ok (post, pm') →
        post.status = PostStatus.draft ∧ post.scheduled_time = none ∧
        getk pm'.drafts post.id = some post ∧ pm'.posts = pm.posts) ∧
    (∀ (slots : List OptimalTimeSlot) (now : DateTime) (template : String)
        (cfg : ScheduleConfig) (fuel : Nat) (st : SysState)
        (l : List Schedule) (st' : SysState),
      create_recurring_schedule slots now template cfg fuel st = some (.ok (l, st')) →
        st'.pm.posts = st.pm.posts ∧
        ∀ e ∈ st'.pm.drafts, e ∈ st.pm.drafts ∨
          (e.2.status = PostStatus.draft ∧ e.2.scheduled_time = none)) := by
  constructor
  · intro pm pid now tname vars post pm' h
    obtain ⟨h1, h2, _, h4, h5, _, _⟩ := cpft_draft pm pid now tname vars post pm' h
    exact ⟨h1, h2, h4, h5⟩
  · intro slots now template cfg fuel st l st' h
    cases hr : recurGo slots now template cfg fuel cfg.start_time st [] with
    | none =>
      rw [create_recurring_schedule, hr] at h
      cases h
    | some r =>
      cases r with
      | error e =>
        rw [create_recurring_schedule, hr] at h
        cases h
      | ok p =>
        rw [create_recurring_schedule, hr] at h
        injection h with h2
        injection h2 with h3
        rw [h3] at hr
        exact recurGo_drafts slots now template cfg fuel cfg.start_time st [] l st' hr

/-- The post a concrete template expansion produces. -/
def postC10 : Post :=
  { id := "p0", content := { text := "post x", hashtags := [], mentions := [] },
    scheduled_time := none, status := .draft, post_type := .text,
    template_name := some "t", created_at := dt0, updated_at := dt0 }

/-- The post-manager state after that concrete expansion. -/
def pmC10 : PMState := { posts := [], drafts := [("p0", postC10)], templates := [("t", tmplDate)] }

/-- Witness for C10: a concrete template expansion yields an unscheduled
draft stored in the drafts partition, with the posts partition
untouched. -/
theorem c10_witness :
    postC10.status = PostStatus.draft ∧ postC10.scheduled_time = none ∧
    getk pmC10.drafts postC10.id = some postC10 ∧ pmC10.posts = pmTmpl.posts :=
  c10_generated_posts_are_drafts.1 pmTmpl "p0" dt0 "t" [("date", "x")] postC10 pmC10
    (by rfl)

/-! ## C5: the Post invariant across Post Manager operations -/

/-- The per-Post part of the spec invariant: `scheduled` implies a
scheduled time, `posted` implies a posted timestamp. -/
def PostOk (p : Post) : Prop :=
  (p.status = PostStatus.scheduled → p.scheduled_time ≠ none) ∧
  (p.status = PostStatus.posted → p.posted_at ≠ none)

/-- The partition-agnostic part of the store invariant: every stored post
satisfies `PostOk` and no id is in both partitions at once. -/
def PMWeakInv (pm : PMState) : Prop :=
  (∀ e ∈ pm.posts, PostOk e.2) ∧
  (∀ e ∈ pm.drafts, PostOk e.2) ∧
  (∀ e ∈ pm.posts, getk pm.drafts e.1 = none)

/-- The full spec invariant: `PMWeakInv` plus status-determined placement
(drafts partition holds exactly the `draft`-status posts). -/
def PMInv (pm : PMState) : Prop :=
  PMWeakInv pm ∧
  (∀ e ∈ pm.drafts, e.2.status = PostStatus.draft) ∧
  (∀ e ∈ pm.posts, e.2.status ≠ PostStatus.draft)

instance (p : Post) : Decidable (PostOk p) := by
  unfold PostOk
  infer_instance

instance (pm : PMState) : Decidable (PMWeakInv pm) := by
  unfold PMWeakInv
  infer_instance

instance (pm : PMState) : Decidable (PMInv pm) := by
  unfold PMInv
  infer_instance

/-- State holding one freshly created draft. -/
def pmC5 : PMState := (create_post pmEmpty "p1" dt0 contentHello .text none none).2

/-- The state after updating that draft with `status=scheduled` and no
scheduled time — the update `kwargs` path of `update_post`. -/
def pmC5x : PMState :=
  match update_post pmC5 "p1" [.status PostStatus.scheduled] dt1 with
  | .ok r => r.2
  | .error _ => pmC5

/-- Counterexample to claim C5: `update_post` applies caller-supplied
fields verbatim and never moves a post between partitions, so updating a
draft to `status=scheduled` without a scheduled time succeeds and leaves
the store violating the invariant (a scheduled-status post with no
scheduled time sitting in the drafts partition). -/
theorem c5_counterexample :
    PMInv pmC5 ∧
    (update_post pmC5 "p1" [.status PostStatus.scheduled] dt1).toOption.isSome = true ∧
    ¬ PMInv pmC5x := by
  decide

/-- Re-storing under a key already present in the draft store keeps the
at-most-one-partition property. -/
theorem setk_atMostOne_draftSide (posts drafts : List (String × Post))
    (pid : String) (v : Post)
    (hao : ∀ e ∈ posts, getk drafts e.1 = none)
    (hd : (getk drafts pid).isSome) :
    ∀ e ∈ posts, getk (setk drafts pid v) e.1 = none := by
  intro e he
  have hne : e.1 ≠ pid := by
    intro hcontra
    have h2 := hao e he
    rw [hcontra] at h2
    rw [h2] at hd
    simp at hd
  rw [getk_setk_ne drafts pid e.1 v (Ne.symm hne)]
  exact hao e he

/-- Storing into the active store a key absent from the draft store keeps
the at-most-one-partition property. -/
theorem setk_atMostOne_postSide (posts drafts : List (String × Post))
    (pid : String) (v : Post)
    (hao : ∀ e ∈ posts, getk drafts e.1 = none)
    (hd : getk drafts pid = none) :
    ∀ e ∈ setk posts pid v, getk drafts e.1 = none := by
  intro e he
  rcases mem_setk posts pid v e he with hm | hm
  · exact hao e hm
  · rw [hm]
    exact hd

/-- Moving an id into the active store while deleting it from the draft
store keeps the at-most-one-partition property. -/
theorem setk_atMostOne_move (posts drafts : List (String × Post))
    (pid : String) (v : Post)
    (hao : ∀ e ∈ posts, getk drafts e.1 = none) :
    ∀ e ∈ setk posts pid v, getk (delk drafts pid) e.1 = none := by
  intro e he
  rcases mem_setk posts pid v e he with hm | hm
  · by_cases hne : e.1 = pid
    · rw [hne]
      exact getk_delk_self _ _
    · rw [getk_delk_ne drafts pid e.1 (Ne.symm hne)]
      exact hao e hm
  · rw [hm]
    exact getk_delk_self _ _

/-- A pointwise property survives a store assignment whose new value has
it. -/
theorem setk_pred {P : Post → Prop} (m : List (String × Post)) (k : String)
    (v : Post) (hm : ∀ e ∈ m, P e.2) (hv : P v) :
    ∀ e ∈ setk m k v, P e.2 := by
  intro e he
  rcases mem_setk m k v e he with h | h
  · exact hm e h
  · rw [h]
    exact hv

/-- A pointwise property survives a store deletion. -/
theorem delk_pred {P : Post → Prop} (m : List (String × Post)) (k : String)
    (hm : ∀ e ∈ m, P e.2) :
    ∀ e ∈ delk m k, P e.2 :=
  fun e he => hm e (mem_delk m k e he)


/-- A draft-status post vacuously satisfies `PostOk`. -/
theorem postOk_draft {p : Post} (h : p.status = PostStatus.draft) : PostOk p :=
  ⟨fun hc => absurd (h ▸ hc) (by simp), fun hc => absurd (h ▸ hc) (by simp)⟩

/-- A failed-status post vacuously satisfies `PostOk`. -/
theorem postOk_failed {p : Post} (h : p.status = PostStatus.failed) : PostOk p :=
  ⟨fun hc => absurd (h ▸ hc) (by simp), fun hc => absurd (h ▸ hc) (by simp)⟩

/-- `create_post` with a fresh id preserves the invariant. -/
theorem create_post_preserves_inv (pm : PMState) (pid : String) (now : DateTime)
    (content : PostContent) (pt : PostType) (tn : Option String)
    (sched : Option DateTime) (hinv : PMInv pm)
    (hp : getk pm.posts pid = none) (hd : getk pm.drafts pid = none) :
    PMInv (create_post pm pid now content pt tn sched).2 := by
  obtain ⟨⟨hpo, hdo, hao⟩, hpl, hpr⟩ := hinv
  cases sched with
  | none =>
    simp only [create_post]
    refine ⟨⟨hpo, ?_, ?_⟩, ?_, hpr⟩
    · exact setk_pred _ _ _ hdo (postOk_draft rfl)
    · intro e he
      have hne : e.1 ≠ pid := (getk_eq_none_iff pm.posts pid).mp hp e he
      rw [getk_setk_ne pm.drafts pid e.1 _ (Ne.symm hne)]
      exact hao e he
    · exact @setk_pred (fun p => p.status = PostStatus.draft) _ _ _ hpl rfl
  | some t =>
    simp only [create_post]
    refine ⟨⟨?_, hdo, ?_⟩, hpl, ?_⟩
    · exact setk_pred _ _ _ hpo ⟨fun _ => by simp, fun hc => absurd hc (by simp)⟩
    · exact setk_atMostOne_postSide _ _ _ _ hao hd
    · exact @setk_pred (fun p => p.status ≠ PostStatus.draft) _ _ _ hpr (by simp)


/-- Key-absence test agrees with lookup. -/
theorem hask_false_iff {α : Type} (m : List (String × α)) (k : String) :
    hask m k = false ↔ getk m k = none := by
  unfold hask
  cases getk m k <;> simp

/-- `PostManager.schedule_post` preserves the invariant: the post gets a
scheduled time with `scheduled` status and is moved to the active
store. -/
theorem pm_schedule_post_preserves_inv (pm : PMState) (pid : String)
    (t now : DateTime) (post : Post) (pm' : PMState) (hinv : PMInv pm)
    (h : pm_schedule_post pm pid t now = .ok (post, pm')) : PMInv pm' := by
  obtain ⟨⟨hpo, hdo, hao⟩, hpl, hpr⟩ := hinv
  cases hg : get_post pm pid with
  | none =>
    simp only [pm_schedule_post, hg] at h
    cases h
  | some p =>
    simp only [pm_schedule_post, hg] at h
    by_cases hdk : hask pm.drafts pid = true
    · rw [if_pos hdk] at h
      injection h with h2
      injection h2 with hpost hpm
      subst hpm
      refine ⟨⟨?_, delk_pred _ _ hdo, setk_atMostOne_move _ _ _ _ hao⟩,
        @delk_pred (fun q => q.status = PostStatus.draft) _ _ hpl,
        @setk_pred (fun q => q.status ≠ PostStatus.draft) _ _ _ hpr (by simp)⟩
      · exact setk_pred _ _ _ hpo ⟨fun _ => by simp, fun hc => absurd hc (by simp)⟩
    · rw [if_neg hdk] at h
      injection h with h2
      injection h2 with hpost hpm
      subst hpm
      have hdn : getk pm.drafts pid = none :=
        (hask_false_iff _ _).mp (by simpa using hdk)
      refine ⟨⟨?_, hdo, setk_atMostOne_postSide _ _ _ _ hao hdn⟩, hpl,
        @setk_pred (fun q => q.status ≠ PostStatus.draft) _ _ _ hpr (by simp)⟩
      · exact setk_pred _ _ _ hpo ⟨fun _ => by simp, fun hc => absurd hc (by simp)⟩

/-- `delete_post` preserves the invariant. -/
theorem delete_post_preserves_inv (pm : PMState) (pid : String)
    (hinv : PMInv pm) : PMInv (delete_post pm pid).2 := by
  obtain ⟨⟨hpo, hdo, hao⟩, hpl, hpr⟩ := hinv
  unfold delete_post
  by_cases h1 : hask pm.posts pid = true
  · rw [if_pos h1]
    exact ⟨⟨delk_pred _ _ hpo, hdo, fun e he => hao e (mem_delk _ _ e he)⟩, hpl,
      @delk_pred (fun q => q.status ≠ PostStatus.draft) _ _ hpr⟩
  · rw [if_neg h1]
    by_cases h2 : hask pm.drafts pid = true
    · rw [if_pos h2]
      refine ⟨⟨hpo, delk_pred _ _ hdo, ?_⟩,
        @delk_pred (fun q => q.status = PostStatus.draft) _ _ hpl, hpr⟩
      intro e he
      by_cases hne : e.1 = pid
      · rw [hne]
        exact getk_delk_self _ _
      · rw [getk_delk_ne pm.drafts pid e.1 (Ne.symm hne)]
        exact hao e he
    · rw [if_neg h2]
      exact ⟨⟨hpo, hdo, hao⟩, hpl, hpr⟩

/-- `post_now` always preserves the weak invariant, and the full
invariant whenever it returns success (on failure it leaves a `failed`
post in whichever partition held it, which may be the drafts
partition). -/
theorem post_now_preserves (pm : PMState) (pid : String)
    (xPost : String → Except String Bool) (now : DateTime) (hinv : PMInv pm) :
    PMWeakInv (post_now pm pid xPost now).2 ∧
    ((post_now pm pid xPost now).1 = .ok true →
      PMInv (post_now pm pid xPost now).2) := by
  obtain ⟨⟨hpo, hdo, hao⟩, hpl, hpr⟩ := hinv
  cases hg : get_post pm pid with
  | none =>
    simp only [post_now, hg]
    exact ⟨⟨hpo, hdo, hao⟩, fun habs => by simp at habs⟩
  | some p =>
    cases hx : xPost p.content.text with
    | ok b =>
      cases b with
      | true =>
        simp only [post_now, hg, hx]
        by_cases hdk : hask pm.drafts pid = true
        · rw [if_pos hdk]
          refine ⟨⟨?_, delk_pred _ _ hdo, setk_atMostOne_move _ _ _ _ hao⟩, ?_⟩
          · exact setk_pred _ _ _ hpo
              ⟨fun hc => absurd hc (by simp), fun _ => by simp⟩
          · intro
            refine ⟨⟨?_, delk_pred _ _ hdo, setk_atMostOne_move _ _ _ _ hao⟩,
              @delk_pred (fun q => q.status = PostStatus.draft) _ _ hpl,
              @setk_pred (fun q => q.status ≠ PostStatus.draft) _ _ _ hpr (by simp)⟩
            exact setk_pred _ _ _ hpo
              ⟨fun hc => absurd hc (by simp), fun _ => by simp⟩
        · rw [if_neg hdk]
          have hdn : getk pm.drafts pid = none :=
            (hask_false_iff _ _).mp (by simpa using hdk)
          refine ⟨⟨?_, hdo, setk_atMostOne_postSide _ _ _ _ hao hdn⟩, ?_⟩
          · exact setk_pred _ _ _ hpo
              ⟨fun hc => absurd hc (by simp), fun _ => by simp⟩
          · intro
            refine ⟨⟨?_, hdo, setk_atMostOne_postSide _ _ _ _ hao hdn⟩, hpl,
              @setk_pred (fun q => q.status ≠ PostStatus.draft) _ _ _ hpr (by simp)⟩
            exact setk_pred _ _ _ hpo
              ⟨fun hc => absurd hc (by simp), fun _ => by simp⟩
      | false =>
        simp only [post_now, hg, hx]
        by_cases hdk : hask pm.drafts pid = true
        · rw [if_pos hdk]
          refine ⟨⟨hpo, setk_pred _ _ _ hdo (postOk_failed rfl),
            setk_atMostOne_draftSide _ _ _ _ hao ?_⟩, fun habs => by simp at habs⟩
          simpa [hask] using hdk
        · rw [if_neg hdk]
          have hdn : getk pm.drafts pid = none :=
            (hask_false_iff _ _).mp (by simpa using hdk)
          exact ⟨⟨setk_pred _ _ _ hpo (postOk_failed rfl), hdo,
            setk_atMostOne_postSide _ _ _ _ hao hdn⟩, fun habs => by simp at habs⟩
    | error msg =>
      simp only [post_now, hg, hx]
      by_cases hdk : hask pm.drafts pid = true
      · rw [if_pos hdk]
        refine ⟨⟨hpo, setk_pred _ _ _ hdo (postOk_failed rfl),
          setk_atMostOne_draftSide _ _ _ _ hao ?_⟩, fun habs => by simp at habs⟩
        simpa [hask] using hdk
      · rw [if_neg hdk]
        have hdn : getk pm.drafts pid = none :=
          (hask_false_iff _ _).mp (by simpa using hdk)
        exact ⟨⟨setk_pred _ _ _ hpo (postOk_failed rfl), hdo,
          setk_atMostOne_postSide _ _ _ _ hao hdn⟩, fun habs => by simp at habs⟩

/-- `update_post` keeps every id in at most one partition (it rewrites in
place), whatever fields it sets. -/
theorem update_post_preserves_atMostOne (pm : PMState) (pid : String)
    (updates : List PostField) (now : DateTime) (post : Post) (pm' : PMState)
    (hinv : PMInv pm) (h : update_post pm pid updates now = .ok (post, pm')) :
    ∀ e ∈ pm'.posts, getk pm'.drafts e.1 = none := by
  obtain ⟨⟨hpo, hdo, hao⟩, hpl, hpr⟩ := hinv
  cases hg : get_post pm pid with
  | none =>
    simp only [update_post, hg] at h
    cases h
  | some p =>
    simp only [update_post, hg] at h
    by_cases hdk : hask pm.drafts pid = true
    · rw [if_pos hdk] at h
      injection h with h2
      injection h2 with hpost hpm
      subst hpm
      exact setk_atMostOne_draftSide _ _ _ _ hao (by simpa [hask] using hdk)
    · rw [if_neg hdk] at h
      injection h with h2
      injection h2 with hpost hpm
      subst hpm
      exact setk_atMostOne_postSide _ _ _ _ hao
        ((hask_false_iff _ _).mp (by simpa using hdk))

/-- `create_post_from_template` with a fresh id preserves the
invariant. -/
theorem cpft_preserves_inv (pm : PMState) (pid : String) (now : DateTime)
    (tname : String) (vars : List (String × String)) (post : Post)
    (pm' : PMState) (hinv : PMInv pm) (hp : getk pm.posts pid = none)
    (hd : getk pm.drafts pid = none)
    (h : create_post_from_template pm pid now tname vars = .ok (post, pm')) :
    PMInv pm' := by
  cases ht : getk pm.templates tname with
  | none =>
    simp only [create_post_from_template, ht] at h
    cases h
  | some tmpl =>
    simp only [create_post_from_template, ht] at h
    cases hf : formatTemplate tmpl.content_template vars with
    | error e =>
      simp only [hf] at h
      cases h
    | ok txt =>
      simp only [hf] at h
      injection h with h2
      have hpm : pm' = (create_post pm pid now
          { text := txt, hashtags := tmpl.hashtags, mentions := tmpl.mentions }
          tmpl.post_type (some tname) none).2 := by
        rw [h2]
      rw [hpm]
      exact create_post_preserves_inv pm pid now _ tmpl.post_type (some tname)
        none hinv hp hd


/-- Claim C5 as amended: `create_post` and `create_post_from_template`
(with fresh ids), `schedule_post` and `delete_post` preserve the full
Post invariant (status implications, at-most-one partition,
status-determined placement); `post_now` preserves the status
implications and at-most-one partition always, and the full invariant
when the publish succeeds; `update_post` preserves at-most-one partition
but — as the counterexample shows — can break the status implications
and the status-determined placement, so the original claim fails only on
the unvalidated update path (and on the failed-publish placement of
drafts). -/
theorem c5_amended_invariant_preservation :
    (∀ (pm : PMState) (pid : String) (now : DateTime) (content : PostContent)
        (pt : PostType) (tn : Option String) (sched : Option DateTime),
      PMInv pm → getk pm.posts pid = none → getk pm.drafts pid = none →
      PMInv (create_post pm pid now content pt tn sched).2) ∧
    (∀ (pm : PMState) (pid : String) (now : DateTime) (tname : String)
        (vars : List (String × String)) (post : Post) (pm' : PMState),
      PMInv pm → getk pm.posts pid = none → getk pm.drafts pid = none →
      create_post_from_template pm pid now tname vars = .ok (post, pm') →
      PMInv pm') ∧
    (∀ (pm : PMState) (pid : String) (t now : DateTime) (post : Post) (pm' : PMState),
      PMInv pm → pm_schedule_post pm pid t now = .ok (post, pm') → PMInv pm') ∧
    (∀ (pm : PMState) (pid : String), PMInv pm → PMInv (delete_post pm pid).2) ∧
    (∀ (pm : PMState) (pid : String) (xPost : String → Except String Bool) (now : DateTime),
      PMInv pm → PMWeakInv (post_now pm pid xPost now).2 ∧
        ((post_now pm pid xPost now).1 = .ok true →
          PMInv (post_now pm pid xPost now).2)) ∧
    (∀ (pm : PMState) (pid : String) (updates : List PostField) (now : DateTime)
        (post : Post) (pm' : PMState),
      PMInv pm → update_post pm pid updates now = .ok (post, pm') →
      ∀ e ∈ pm'.posts, getk pm'.drafts e.1 = none) :=
  ⟨fun pm pid now c pt tn s hi hp hd =>
      create_post_preserves_inv pm pid now c pt tn s hi hp hd,
    fun pm pid now tname vars post pm' hi hp hd h =>
      cpft_preserves_inv pm pid now tname vars post pm' hi hp hd h,
    fun pm pid t now post pm' hi h =>
      pm_schedule_post_preserves_inv pm pid t now post pm' hi h,
    fun pm pid hi => delete_post_preserves_inv pm pid hi,
    fun pm pid xPost now hi => post_now_preserves pm pid xPost now hi,
    fun pm pid updates now post pm' hi h =>
      update_post_preserves_atMostOne pm pid updates now post pm' hi h⟩

/-- Witness for the amended C5: the freshly created draft state satisfies
the invariant via the create_post clause. -/
theorem c5_witness : PMInv pmC5 :=
  c5_amended_invariant_preservation.1 pmEmpty "p1" dt0 contentHello .text none
    none (by decide) rfl rfl


/-! ## C1: the background scan pass -/

/-- One loop iteration never changes a schedule entry’s key. -/
theorem processOne_fst (now : DateTime) (xPost : String → Except String Bool)
    (pm : PMState) (e : String × Schedule) :
    (processOne now xPost pm e).2.1.1 = e.1 := by
  unfold processOne
  split <;> rfl

/-- The scan pass rewrites the schedule store in place: same keys, same
order, nothing skipped or dropped. -/
theorem check_keys (now : DateTime) (xPost : String → Except String Bool) :
    ∀ (scheds : List (String × Schedule)) (pm : PMState),
      (check_scheduled_posts now xPost pm scheds).2.1.map (fun e => e.1) =
        scheds.map (fun e => e.1) := by
  intro scheds
  induction scheds with
  | nil => intro pm; rfl
  | cons e rest ih =>
    intro pm
    simp only [check_scheduled_posts, List.map_cons]
    rw [processOne_fst, ih]

/-- The scan pass publishes exactly the due pending schedules, in store
order, regardless of the outcomes of earlier publishes in the same
pass. -/
theorem check_calls (now : DateTime) (xPost : String → Except String Bool) :
    ∀ (scheds : List (String × Schedule)) (pm : PMState),
      (check_scheduled_posts now xPost pm scheds).2.2 =
        (scheds.filter (fun e => isDue now e.2)).map (fun e => e.2.post_id) := by
  intro scheds
  induction scheds with
  | nil => intro pm; rfl
  | cons e rest ih =>
    intro pm
    by_cases hdue : isDue now e.2 = true
    · simp only [check_scheduled_posts, processOne, hdue, if_pos, List.filter_cons,
        List.map_cons, ih]
      simp [hdue]
    · simp only [check_scheduled_posts, processOne, hdue, List.filter_cons]
      simp only [Bool.false_eq_true, if_false] at *
      simp [hdue, ih]

/-- Post-store threading of the scan pass decomposes along the list. -/
theorem check_fst_cons (now : DateTime) (xPost : String → Except String Bool)
    (pm : PMState) (e : String × Schedule) (l : List (String × Schedule)) :
    (check_scheduled_posts now xPost pm (e :: l)).1 =
      (check_scheduled_posts now xPost (processOne now xPost pm e).1 l).1 := rfl

/-- Positional characterization of one scan pass: the i-th output entry
is the i-th input schedule, untouched unless it was due and pending, in
which case its new status is determined by the outcome of the publish
call performed against the post store as threaded through the earlier
iterations. -/
theorem check_get (now : DateTime) (xPost : String → Except String Bool) :
    ∀ (scheds : List (String × Schedule)) (pm : PMState) (i : Nat),
      (check_scheduled_posts now xPost pm scheds).2.1.get? i =
        (scheds.get? i).map (fun s =>
          if isDue now s.2 then
            (s.1, applyOutcome s.2
              ((post_now (check_scheduled_posts now xPost pm (scheds.take i)).1
                s.2.post_id xPost now).1) now)
          else s) := by
  intro scheds
  induction scheds with
  | nil =>
    intro pm i
    cases i <;> rfl
  | cons e rest ih =>
    intro pm i
    cases i with
    | zero =>
      show ((processOne now xPost pm e).2.1 ::
        (check_scheduled_posts now xPost (processOne now xPost pm e).1 rest).2.1).get? 0 = _
      rw [List.get?_cons_zero, List.get?_cons_zero]
      unfold processOne
      split
      next hdue =>
        simp only [List.take_zero, Option.map]
        rw [if_pos hdue]
        rfl
      next hdue =>
        simp only [Option.map]
        rw [if_neg hdue]
    | succ j =>
      show ((processOne now xPost pm e).2.1 ::
        (check_scheduled_posts now xPost (processOne now xPost pm e).1 rest).2.1).get? (j + 1) = _
      rw [List.get?_cons_succ, List.get?_cons_succ]
      rw [ih (processOne now xPost pm e).1 j]
      simp only [List.take_succ_cons, check_fst_cons]

/-- Claim C1: in a scan pass, exactly the schedules with status
`"pending"` and `scheduled_time <= now` are executed; each such schedule
becomes `executed` with `executed_at` = the scan’s `now` when the publish
call returns true, `failed` with the generic message
`"投稿実行に失敗しました"` when it returns false, and `failed` with the
exception’s message when it raises (see `applyOutcome`); all other
schedules are untouched, and a failure or exception on one due schedule
never prevents the remaining due schedules of the same pass from being
processed (the characterization holds at every position, whatever the
earlier outcomes). -/
theorem c1_scan_pass (now : DateTime) (xPost : String → Except String Bool)
    (pm : PMState) (scheds : List (String × Schedule)) :
    ((check_scheduled_posts now xPost pm scheds).2.1.map (fun e => e.1) =
      scheds.map (fun e => e.1)) ∧
    ((check_scheduled_posts now xPost pm scheds).2.2 =
      (scheds.filter (fun e => isDue now e.2)).map (fun e => e.2.post_id)) ∧
    (∀ (i : Nat),
      (check_scheduled_posts now xPost pm scheds).2.1.get? i =
        (scheds.get? i).map (fun s =>
          if isDue now s.2 then
            (s.1, applyOutcome s.2
              ((post_now (check_scheduled_posts now xPost pm (scheds.take i)).1
                s.2.post_id xPost now).1) now)
          else s)) :=
  ⟨check_keys now xPost scheds pm, check_calls now xPost scheds pm,
    fun i => check_get now xPost scheds pm i⟩


/-! ## C9: statistics invariant over reachable schedule stores -/

/-- Every schedule in the store carries one of the four status tags. -/
def ValidStatuses (scheds : List (String × Schedule)) : Prop :=
  ∀ e ∈ scheds, e.2.status = "pending" ∨ e.2.status = "executed" ∨
    e.2.status = "failed" ∨ e.2.status = "cancelled"

/-- Schedule stores reachable through the scheduler’s operations from the
empty store: creating a schedule, cancelling, a background scan pass, and
a recurring-generation run. -/
inductive SchedReachable : List (String × Schedule) → Prop where
  | empty : SchedReachable []
  | schedule (s : List (String × Schedule)) (sid : String) (now : DateTime)
      (post_id : String) (t : DateTime) (ty : ScheduleType) :
      SchedReachable s → SchedReachable (schedule_post s sid now post_id t ty).2
  | cancel (s : List (String × Schedule)) (sid : String) :
      SchedReachable s → SchedReachable (cancel_schedule s sid).2
  | scan (s : List (String × Schedule)) (now : DateTime)
      (xPost : String → Except String Bool) (pm : PMState) :
      SchedReachable s → SchedReachable (check_scheduled_posts now xPost pm s).2.1
  | recurring (s : List (String × Schedule)) (slots : List OptimalTimeSlot)
      (now : DateTime) (template : String) (cfg : ScheduleConfig) (fuel : Nat)
      (pm : PMState) (n : Nat) (l : List Schedule) (st' : SysState) :
      SchedReachable s →
      create_recurring_schedule slots now template cfg fuel ⟨pm, s, n⟩ =
        some (.ok (l, st')) →
      SchedReachable st'.scheds

/-- Status validity survives a store assignment with a valid value. -/
theorem valid_setk (s : List (String × Schedule)) (k : String) (v : Schedule)
    (hs : ValidStatuses s)
    (hv : v.status = "pending" ∨ v.status = "executed" ∨ v.status = "failed" ∨
      v.status = "cancelled") : ValidStatuses (setk s k v) := by
  intro e he
  rcases mem_setk s k v e he with h | h
  · exact hs e h
  · rw [h]
    exact hv

/-- `schedule_post` only adds `pending` schedules. -/
theorem valid_schedule_post (s : List (String × Schedule)) (sid : String)
    (now : DateTime) (post_id : String) (t : DateTime) (ty : ScheduleType)
    (hs : ValidStatuses s) :
    ValidStatuses (schedule_post s sid now post_id t ty).2 :=
  valid_setk s sid _ hs (Or.inl rfl)

/-- `cancel_schedule` only writes the `cancelled` status. -/
theorem valid_cancel (s : List (String × Schedule)) (sid : String)
    (hs : ValidStatuses s) : ValidStatuses (cancel_schedule s sid).2 := by
  cases hg : getk s sid with
  | none => simpa only [cancel_schedule, hg] using hs
  | some sch =>
    by_cases hp : sch.status = "pending"
    · simp only [cancel_schedule, hg, if_pos hp]
      exact valid_setk s sid _ hs (Or.inr (Or.inr (Or.inr rfl)))
    · simp only [cancel_schedule, hg, if_neg hp]
      exact hs

/-- A scan pass only writes `executed` or `failed` statuses. -/
theorem valid_check (now : DateTime) (xPost : String → Except String Bool) :
    ∀ (scheds : List (String × Schedule)) (pm : PMState),
      ValidStatuses scheds →
      ValidStatuses (check_scheduled_posts now xPost pm scheds).2.1 := by
  intro scheds
  induction scheds with
  | nil => intro pm _; intro e he; cases he
  | cons e rest ih =>
    intro pm hs f hf
    have hrest : ValidStatuses rest := fun g hg => hs g (List.mem_cons_of_mem _ hg)
    rcases List.mem_cons.mp hf with h | h
    · rw [h]
      unfold processOne
      split
      · cases hres : (post_now pm e.2.post_id xPost now).1 with
        | ok b =>
          cases b with
          | true => simp [applyOutcome, hres]
          | false => simp [applyOutcome, hres]
        | error m => simp [applyOutcome, hres]
      · exact hs e (List.mem_cons_self _ _)
    · exact ih (processOne now xPost pm e).1 hrest f h

/-- The inner generation loop only adds `pending` schedules. -/
theorem valid_emitDay (maxPosts : Nat) (stype : ScheduleType) (template : String)
    (day now : DateTime) :
    ∀ (times : List DateTime) (st : SysState) (acc : List Schedule)
      (res : List Schedule × SysState),
      emitDay maxPosts stype template day now times st acc = .ok res →
      ValidStatuses st.scheds → ValidStatuses res.2.scheds := by
  intro times
  induction times with
  | nil =>
    intro st acc res hres hv
    simp only [emitDay] at hres
    injection hres with h
    subst h
    exact hv
  | cons t ts ih =>
    intro st acc res hres hv
    simp only [emitDay] at hres
    cases hc : create_post_from_template st.pm (freshPostId st.nextId) now
        template [("date", day.dateString)] with
    | error e =>
      simp only [hc] at hres
      cases hres
    | ok r =>
      simp only [hc] at hres
      split at hres
      next h =>
        injection hres with h2
        subst h2
        exact valid_schedule_post _ _ _ _ _ _ hv
      next h =>
        exact ih _ _ res hres (valid_schedule_post _ _ _ _ _ _ hv)

/-- The generation loop only adds `pending` schedules. -/
theorem valid_recurGo (slots : List OptimalTimeSlot) (now : DateTime)
    (template : String) (cfg : ScheduleConfig) :
    ∀ (fuel : Nat) (cur : DateTime) (st : SysState) (acc : List Schedule)
      (l : List Schedule) (st' : SysState),
      recurGo slots now template cfg fuel cur st acc = some (.ok (l, st')) →
      ValidStatuses st.scheds → ValidStatuses st'.scheds := by
  intro fuel
  induction fuel with
  | zero =>
    intro cur st acc l st' hrun
    simp [recurGo] at hrun
  | succ n ih =>
    intro cur st acc l st' hrun hv
    simp only [recurGo] at hrun
    split at hrun
    · split at hrun
      · exact ih _ _ _ l st' hrun hv
      · cases hemit : emitDay cfg.max_posts_per_day cfg.schedule_type template cur now
            (suggest_optimal_times slots now cur 3) st acc with
        | error e =>
          simp only [hemit] at hrun
          exact absurd hrun (by simp)
        | ok r =>
          simp only [hemit] at hrun
          have hvr : ValidStatuses r.2.scheds :=
            valid_emitDay cfg.max_posts_per_day cfg.schedule_type template cur now
              _ st acc r hemit hv
          cases hst : cfg.schedule_type with
          | daily =>
            rw [hst] at hrun
            exact ih _ _ _ l st' hrun hvr
          | weekly =>
            rw [hst] at hrun
            exact ih _ _ _ l st' hrun hvr
          | monthly =>
            rw [hst] at hrun
            cases hm : addMonthSimple cur with
            | error e =>
              simp only [hm] at hrun
              exact absurd hrun (by simp)
            | ok nxt =>
              simp only [hm] at hrun
              exact ih _ _ _ l st' hrun hvr
          | once =>
            rw [hst] at hrun
            exact ih _ _ _ l st' hrun hvr
    · injection hrun with h
      injection h with h2
      injection h2 with h3 h4
      subst h4
      exact hv

/-- Every reachable store has only valid statuses. -/
theorem reachable_valid (s : List (String × Schedule)) (h : SchedReachable s) :
    ValidStatuses s := by
  induction h with
  | empty => intro e he; cases he
  | schedule s sid now pid t ty hs ih => exact valid_schedule_post s sid now pid t ty ih
  | cancel s sid hs ih => exact valid_cancel s sid ih
  | scan s now xPost pm hs ih => exact valid_check now xPost s pm ih
  | recurring s slots now template cfg fuel pm n l st' hs hrun ih =>
    cases hr : recurGo slots now template cfg fuel cfg.start_time ⟨pm, s, n⟩ [] with
    | none =>
      rw [create_recurring_schedule, hr] at hrun
      cases hrun
    | some r =>
      cases r with
      | error e =>
        rw [create_recurring_schedule, hr] at hrun
        cases hrun
      | ok p =>
        rw [create_recurring_schedule, hr] at hrun
        injection hrun with h2
        injection h2 with h3
        rw [h3] at hr
        exact valid_recurGo slots now template cfg fuel cfg.start_time ⟨pm, s, n⟩
          [] l st' hr ih

/-- A list of schedules whose statuses all lie in the four tags is
partitioned exactly by the four status filters. -/
theorem count_four (vals : List Schedule)
    (h : ∀ s ∈ vals, s.status = "pending" ∨ s.status = "executed" ∨
      s.status = "failed" ∨ s.status = "cancelled") :
    (vals.filter (fun s => s.status = "pending")).length +
    (vals.filter (fun s => s.status = "executed")).length +
    (vals.filter (fun s => s.status = "failed")).length +
    (vals.filter (fun s => s.status = "cancelled")).length = vals.length := by
  induction vals with
  | nil => rfl
  | cons v vs ih =>
    have ihv := ih (fun s hs => h s (List.mem_cons_of_mem _ hs))
    rcases h v (List.mem_cons_self _ _) with h1 | h1 | h1 | h1 <;>
      simp [List.filter_cons, h1] <;> omega

/-- Claim C9: in every store reachable through the scheduler’s
operations, `get_statistics` satisfies pending + executed + failed +
cancelled = total, and `success_rate` equals executed / total * 100 when
total > 0 and 0 when total = 0 (float arithmetic modelled exactly over
the rationals). -/
theorem c9_statistics_invariant (s : List (String × Schedule))
    (today : Nat × Nat × Nat) (hreach : SchedReachable s) :
    (get_statistics s today).pending_schedules +
      (get_statistics s today).executed_schedules +
      (get_statistics s today).failed_schedules +
      (get_statistics s today).cancelled_schedules =
      (get_statistics s today).total_schedules ∧
    (get_statistics s today).success_rate =
      (if (get_statistics s today).total_schedules > 0 then
        ((get_statistics s today).executed_schedules : ℚ) /
          ((get_statistics s today).total_schedules : ℚ) * 100
      else 0) := by
  constructor
  · have hv := reachable_valid s hreach
    have hc := count_four (s.map (fun e => e.2)) (fun x hx => by
      rcases List.mem_map.mp hx with ⟨e, he, rfl⟩
      exact hv e he)
    simpa [get_statistics] using hc
  · rfl

/-- Store holding one schedule created by `schedule_post`. -/
def schedsC9 : List (String × Schedule) :=
  (schedule_post [] "s1" dt0 "p1" dt1 .once).2

/-- Witness for C9: the statistics identity at a concrete reachable
store with one pending schedule. -/
theorem c9_witness :
    (get_statistics schedsC9 (2025, 1, 1)).pending_schedules +
      (get_statistics schedsC9 (2025, 1, 1)).executed_schedules +
      (get_statistics schedsC9 (2025, 1, 1)).failed_schedules +
      (get_statistics schedsC9 (2025, 1, 1)).cancelled_schedules =
      (get_statistics schedsC9 (2025, 1, 1)).total_schedules :=
  (c9_statistics_invariant schedsC9 (2025, 1, 1)
    (SchedReachable.schedule [] "s1" dt0 "p1" dt1 .once SchedReachable.empty)).1


end Xbot
